import Mathlib

/-!
Verification of the LIA backend's execution-safety subsystem.

This file gives a shallow embedding, in Lean 4, of the safety-relevant parts
of the LIA backend:

* `normalizePath` — `CommandExecutor._normalize_path` (command_executor.py, lines 26-60);
* `executeGate` — the allow-list / deny-list / shell-routing gate at the top of
  `CommandExecutor._execute_command` (command_executor.py, lines 691-820);
* `commandResultData` — the result payload built from a finished subprocess
  (command_executor.py, lines 846-883);
* `pyTruncate`, `executeWithPython`, `isSafeCode` — the generated-script path
  (python_executor.py);
* `canHandleWithPython` — the fallback eligibility check (python_executor.py, lines 24-62);
* `allowRequest` — the sliding-window rate limiter (main.py, lines 50-64);
* `cacheGet` / `cacheSet` — the `LRUCacheTTL` intent cache (main.py, lines 70-97);
* `deleteFileHandler` — `CommandExecutor._delete_file` (command_executor.py, lines 526-569)
  over an abstract association-list file system.

Python strings coming from requests, commands and captured process output are
modelled as `List Char`, with explicit executable models of `str.lower()`
(ASCII case folding), `str.strip()`, `str.split()` and the `in` substring
test.  Canonical absolute paths are modelled as their component lists
(`List String`), so that Python's `PurePath.relative_to` succeeds exactly
when the base's components are a prefix of the path's components.
Timestamps (`time.time()` values) are modelled as integers.
-/

namespace LIA

/-! ### Python string primitives on `List Char` -/

/-- Python's `str.lower()` (ASCII case folding). -/
def toLowerChars (l : List Char) : List Char :=
  l.map Char.toLower

/-- Python's `str.strip()`: drop leading and trailing whitespace. -/
def stripChars (l : List Char) : List Char :=
  ((l.dropWhile Char.isWhitespace).reverse.dropWhile Char.isWhitespace).reverse

/-- `containsSub l pat` models Python's `pat in l` substring test: `true` iff
`pat` occurs as a contiguous sublist of `l`. -/
def containsSub (l pat : List Char) : Bool :=
  match l with
  | [] => pat.isEmpty
  | _ :: rest => pat.isPrefixOf l || containsSub rest pat

/-- Python's `str.split()` with no argument: whitespace-delimited tokens,
empty tokens discarded. -/
def splitWs (l : List Char) : List (List Char) :=
  (l.splitOnP Char.isWhitespace).filter (fun t => ¬ t.isEmpty)

/-- `containsSub` agrees with the infix relation on lists. -/
theorem containsSub_iff_infix (l pat : List Char) :
    containsSub l pat = true ↔ pat <:+: l := by
  induction l with
  | nil =>
    simp [containsSub, List.isEmpty_iff, List.infix_nil]
  | cons c rest ih =>
    simp only [containsSub, Bool.or_eq_true, List.isPrefixOf_iff_prefix, ih]
    constructor
    · rintro (h | h)
      · exact h.isInfix
      · exact List.infix_cons h
    · intro h
      rcases List.infix_cons_iff.mp h with h | h
      · exact Or.inl h
      · exact Or.inr h

/-! ### PathGuard: `CommandExecutor._normalize_path`

A canonical absolute path is its list of components (after the root), so the
containment test `normalized.relative_to(base)` succeeds exactly when `base`'s
components are a prefix of `normalized`'s.  The composite of
`os.path.expanduser` and `Path.resolve` is an operating-system primitive; it
is taken as an arbitrary function `resolve : List Char → List String`, so the
confinement theorem holds for every behaviour of the resolver. -/

/-- The well-known folder aliases of `_normalize_path` (command_executor.py, lines 29-37). -/
def commonFolders : List (List Char × List Char) :=
  [("downloads".toList, "Downloads".toList), ("documents".toList, "Documents".toList),
   ("pictures".toList, "Pictures".toList), ("desktop".toList, "Desktop".toList),
   ("music".toList, "Music".toList), ("videos".toList, "Videos".toList),
   ("home".toList, [])]

/-- Failure raised when a path escapes the allowed root; it carries the
(possibly alias-rewritten) input path interpolated into the
`"Access denied"` message. -/
inductive PathError where
  | permissionDenied (path : List Char)
deriving DecidableEq, Repr

/-- The alias-expansion prologue of `_normalize_path` (command_executor.py,
lines 39-47): a bare well-known folder name (case-insensitively, with no path
separator) is rewritten to a home-relative path. -/
def aliasRewrite (path : List Char) : List Char :=
  let pathLower := stripChars (toLowerChars path)
  match commonFolders.find? (fun e => e.1 == pathLower) with
  | some e =>
      if path.contains '/' || path.contains '\\' then path
      else if e.2.isEmpty then ['~'] else '~' :: '/' :: e.2
  | none => path

/-- `CommandExecutor._normalize_path` (command_executor.py, lines 26-60):
alias expansion, `~`/relative resolution, then the `relative_to`
containment check against the allowed base directory. -/
def normalizePath (resolve : List Char → List String) (base : List String)
    (path : List Char) : Except PathError (List String) :=
  let normalized := resolve (aliasRewrite path)
  if base.isPrefixOf normalized then .ok normalized
  else .error (.permissionDenied (aliasRewrite path))

/-- C1: For every resolver behaviour, every allowed root and every input path,
`_normalize_path` either returns a canonical path of which the allowed root's
components are a prefix (the path is the root itself or a descendant of it),
or fails with the `PermissionError` (`PermissionDenied`); it never returns a
path outside the allowed root. -/
theorem normalizePath_confined (resolve : List Char → List String)
    (base : List String) (path : List Char) :
    (∀ p, normalizePath resolve base path = .ok p → base <+: p) ∧
    (∀ e, normalizePath resolve base path = .error e → ∃ s, e = .permissionDenied s) := by
  constructor
  · intro p hp
    simp only [normalizePath] at hp
    by_cases h : base.isPrefixOf (resolve (aliasRewrite path))
    · rw [if_pos h] at hp
      cases hp
      exact List.isPrefixOf_iff_prefix.mp h
    · rw [if_neg h] at hp
      cases hp
  · intro e he
    simp only [normalizePath] at he
    by_cases h : base.isPrefixOf (resolve (aliasRewrite path))
    · rw [if_pos h] at he
      cases he
    · rw [if_neg h] at he
      cases he
      exact ⟨_, rfl⟩

/-- Witness for C1: the containment theorem applied to a concrete resolver,
root and input, with both the success and the denial branch exercised at
evaluable points. -/
theorem normalizePath_confined_witness :
    (normalizePath (fun _ => ["home", "user", "docs"]) ["home", "user"] "docs".toList =
      .ok ["home", "user", "docs"] ∧
      ["home", "user"] <+: ["home", "user", "docs"]) ∧
    normalizePath (fun _ => ["etc", "passwd"]) ["home", "user"] "../../etc/passwd".toList =
      .error (.permissionDenied "../../etc/passwd".toList) :=
  ⟨⟨by rfl,
    (normalizePath_confined (fun _ => ["home", "user", "docs"]) ["home", "user"]
      "docs".toList).1 ["home", "user", "docs"] (by rfl)⟩,
   by rfl⟩

/-! ### CommandGate: the validation prologue of `CommandExecutor._execute_command`

`_execute_command` (command_executor.py, lines 691-844) first tokenizes the
raw command, rejects an empty command, rejects a base command missing from
`safe_commands`, then scans the case-folded full command for the first
matching entry of `dangerous_patterns`, and finally routes to
shell-interpreted or literal-argv execution depending on the presence of
pipe/redirect/chain metacharacters. -/

/-- The `safe_commands` allow-list (command_executor.py, lines 696-747),
transcribed in source order (duplicates included). -/
def safeCommands : List (List Char) :=
  (["ls", "pwd", "cd", "mkdir", "rmdir", "touch", "cat", "head", "tail", "less", "more",
    "wc", "sort", "uniq", "grep", "find", "locate", "which", "whereis", "file", "stat",
    "du", "df", "mount", "umount", "chmod", "chown", "chgrp", "ln", "readlink",
    "awk", "sed", "cut", "paste", "join", "diff", "cmp", "comm", "tr", "expand", "unexpand",
    "fold", "fmt", "pr", "column", "nl", "tac", "rev", "base64", "hexdump", "od",
    "uname", "hostname", "whoami", "id", "groups", "who", "w", "users", "last", "lastlog",
    "uptime", "date", "cal", "time", "env", "printenv", "set", "ps", "top", "htop",
    "free", "vmstat", "iostat", "sar", "netstat", "ss", "lsof", "fuser", "lscpu", "lsmem",
    "ping", "traceroute", "nslookup", "dig", "host", "curl", "wget", "nc", "telnet",
    "ssh", "scp", "rsync", "ifconfig", "ip", "route", "arp", "iptables", "ufw",
    "kill", "killall", "pkill", "pgrep", "jobs", "bg", "fg", "nohup", "screen", "tmux",
    "at", "crontab", "systemctl", "service", "initctl",
    "tar", "gzip", "gunzip", "bzip2", "bunzip2", "xz", "unxz", "zip", "unzip", "7z",
    "rar", "unrar", "cpio", "ar", "zipinfo",
    "apt", "apt-get", "apt-cache", "dpkg", "yum", "dnf", "rpm", "pacman", "brew",
    "pip", "npm", "yarn", "gem", "cargo", "go", "maven", "gradle",
    "git", "svn", "hg", "make", "cmake", "gcc", "g++", "clang", "python", "python3",
    "node", "npm", "yarn", "java", "javac", "javadoc", "mvn", "gradle", "docker",
    "docker-compose", "kubectl", "helm", "terraform", "ansible",
    "tail", "journalctl", "dmesg", "syslog", "logger", "watch", "strace", "ltrace",
    "tcpdump", "wireshark", "tcpflow", "ngrep", "iftop", "iotop", "nethogs",
    "man", "info", "help", "type", "alias", "history", "clear", "reset", "stty",
    "tty", "mesg", "write", "wall", "talk", "finger", "whois", "wget", "curl",
    "lynx", "links", "elinks", "w3m", "tree", "exa", "bat", "fd", "ripgrep",
    "bc", "dc", "factor", "primes", "seq", "shuf", "random", "expr", "let",
    "yes", "no", "true", "false", "echo", "printf", "sleep", "wait", "timeout",
    "nice", "renice", "ionice", "taskset", "chrt", "flock", "fuser", "lsof"] :
   List String).map String.toList

/-- The `dangerous_patterns` deny-list (command_executor.py, lines 767-807),
transcribed in source order. -/
def dangerousPatterns : List (List Char) :=
  (["rm ", "rm -", "del ", "format ", "mkfs", "dd if=", "dd of=", "shutdown", "reboot",
    "halt", "poweroff", "init 0", "init 6", "kill -9", "killall -9", "pkill -9",
    "chmod 777", "chmod +s", "chown root", "passwd", "useradd", "userdel", "groupadd",
    "groupdel", "usermod", "groupmod", "visudo", "sudo ", "su ", "sudoers",
    "nc -l", "netcat -l", "python -m http.server", "python3 -m http.server", "php -S",
    "ruby -run", "perl -MIO::Socket", "telnetd", "sshd", "ftp", "tftp",
    "mount -o", "umount -f", "fdisk", "parted", "mkfs", "fsck", "badblocks",
    "dd if=/dev/", "dd of=/dev/", "cat > /dev/", "echo > /dev/",
    "kill -STOP", "kill -CONT", "renice -20", "nice -20", "ionice -c 1",
    "taskset -c 0", "chrt -f 99", "strace -e trace", "ltrace -e",
    "apt remove", "apt purge", "yum remove", "dnf remove", "pacman -R", "brew uninstall",
    "pip uninstall", "npm uninstall", "gem uninstall", "cargo uninstall",
    "make install", "make uninstall", "cmake --install", "docker run --privileged",
    "docker exec --privileged", "kubectl delete", "helm uninstall", "terraform destroy",
    "; rm", "; del", "; format", "; shutdown", "; reboot", "&& rm", "&& del",
    "|| rm", "|| del", "| rm", "| del", "> /dev/", ">> /dev/", "2> /dev/",
    "bash -c", "sh -c", "zsh -c", "fish -c", "python -c", "perl -e", "ruby -e",
    "node -e", "php -r", "lua -e", "awk \x27\x7b", "sed \x27", "eval", "exec",
    "export PATH=", "export LD_LIBRARY_PATH=", "export PYTHONPATH=", "alias rm=",
    "unalias", "hash -r", "builtin", "command", "type -a", "declare -f"] :
   List String).map String.toList

/-- Verdict of the command-validation prologue of `_execute_command`. -/
inductive GateVerdict where
  /-- `"Empty command"` (line 754). -/
  | emptyCommand
  /-- `"Command not allowed. Safe commands: …"` (line 762). -/
  | notAllowlisted
  /-- `"🚫 Command blocked for security: Contains dangerous pattern …"`
  naming the matched pattern (line 815). -/
  | dangerousPattern (p : List Char)
  /-- Proceed to `subprocess.run(command, shell=True, …)` (lines 827-834). -/
  | execShell
  /-- Proceed to `subprocess.run(cmd_parts, …)` (lines 838-844). -/
  | execArgv
deriving DecidableEq, Repr

/-- The `use_shell` test (command_executor.py, line 820). -/
def needsShell (command : List Char) : Bool :=
  containsSub command "|".toList || containsSub command ">".toList ||
    containsSub command "&&".toList || containsSub command "||".toList

/-- The validation prologue of `_execute_command` (command_executor.py,
lines 749-844): tokenization and empty check, case-sensitive allow-list
check on the first token, first-match scan of the case-folded command
against the deny-list, then the shell-routing decision. -/
def executeGate (command : List Char) : GateVerdict :=
  match splitWs command with
  | [] => .emptyCommand
  | base :: _ =>
    if ¬ safeCommands.contains base then .notAllowlisted
    else
      match dangerousPatterns.find? (fun p => containsSub (toLowerChars command) p) with
      | some p => .dangerousPattern p
      | none => if needsShell command then .execShell else .execArgv

/-- Unfolding lemma for `executeGate` on a non-empty token list. -/
theorem executeGate_cons (cmd base : List Char) (rest : List (List Char))
    (h : splitWs cmd = base :: rest) :
    executeGate cmd =
      if ¬ safeCommands.contains base then .notAllowlisted
      else
        match dangerousPatterns.find? (fun p => containsSub (toLowerChars cmd) p) with
        | some p => .dangerousPattern p
        | none => if needsShell cmd then .execShell else .execArgv := by
  unfold executeGate
  rw [h]

/-- C3: a command whose first whitespace token is allow-listed but whose
case-folded text contains a configured deny-list pattern is denied with the
dangerous-pattern verdict (naming a configured pattern that occurs in the
command), and is never routed to either execution mode. -/
theorem gate_dangerous_overrides_allowlist (cmd base : List Char)
    (rest : List (List Char)) (hsplit : splitWs cmd = base :: rest)
    (hallow : base ∈ safeCommands) (p : List Char) (hp : p ∈ dangerousPatterns)
    (hmatch : containsSub (toLowerChars cmd) p = true) :
    ∃ q, executeGate cmd = .dangerousPattern q ∧ q ∈ dangerousPatterns ∧
      containsSub (toLowerChars cmd) q = true := by
  have hcontains : safeCommands.contains base = true := by
    simpa using hallow
  have hsome : (dangerousPatterns.find? (fun q => containsSub (toLowerChars cmd) q)).isSome := by
    rw [List.find?_isSome]
    exact ⟨p, hp, hmatch⟩
  obtain ⟨q, hq⟩ := Option.isSome_iff_exists.mp hsome
  refine ⟨q, ?_, List.mem_of_find?_eq_some hq, List.find?_some hq⟩
  rw [executeGate_cons cmd base rest hsplit, hcontains, hq]
  simp

/-- Witness for C3: `"chmod 777 notes.txt"` has allow-listed base `"chmod"`
and contains the deny-listed pattern `"chmod 777"`, so the gate denies it
citing a dangerous pattern. -/
theorem gate_dangerous_overrides_allowlist_witness :
    ∃ q, executeGate "chmod 777 notes.txt".toList = .dangerousPattern q ∧
      q ∈ dangerousPatterns ∧
      containsSub (toLowerChars "chmod 777 notes.txt".toList) q = true :=
  gate_dangerous_overrides_allowlist "chmod 777 notes.txt".toList "chmod".toList
    ["777".toList, "notes.txt".toList] (by decide) (by decide)
    "chmod 777".toList (by decide) (by decide)

/-- Counterexample to C2: `"rm -rf /"` is denied, but with the
not-allowlisted verdict, not a dangerous-pattern verdict — even though the
deny-listed destructive pattern `"rm -"` does occur in the case-folded
command.  The deny-list scan therefore does not run independently of
allow-list membership. -/
theorem gate_rmRf_counterexample :
    executeGate "rm -rf /".toList = .notAllowlisted ∧
    GateVerdict.notAllowlisted ≠ .dangerousPattern "rm -".toList ∧
    "rm -".toList ∈ dangerousPatterns ∧
    containsSub (toLowerChars "rm -rf /".toList) "rm -".toList = true := by
  refine ⟨by decide, by decide, by decide, by decide⟩

/-- C2 (amended): the deny-list scan runs only after the allow-list check
passes — a command whose base command is not allow-listed is denied with the
not-allowlisted reason before any deny-list pattern is consulted.  In
particular `"rm -rf /"` is denied, but citing the allow-list, not the
matched destructive pattern. -/
theorem gate_denylist_after_allowlist :
    executeGate "rm -rf /".toList = .notAllowlisted ∧
    (∀ cmd base rest, splitWs cmd = base :: rest →
      safeCommands.contains base = false → executeGate cmd = .notAllowlisted) := by
  refine ⟨by decide, fun cmd base rest hsplit hbase => ?_⟩
  rw [executeGate_cons cmd base rest hsplit, hbase]
  simp

/-- Witness for C2 (amended): the general not-allowlisted clause applied to
the concrete command `"rm -rf /"`, whose base `"rm"` is not allow-listed. -/
theorem gate_denylist_after_allowlist_witness :
    executeGate "rm -rf /".toList = .notAllowlisted :=
  gate_denylist_after_allowlist.2 "rm -rf /".toList "rm".toList
    ["-rf".toList, "/".toList] (by decide) (by decide)

/-! ### ProcessSandbox parameters and result shape

Timeouts: `subprocess.run(..., timeout=15)` for shell-interpreted commands
(command_executor.py, line 832), `subprocess.run(..., timeout=10)` for
literal-argv commands (line 842), and `self.execution_timeout = 5` for
generated-script execution (python_executor.py, line 21). -/

/-- Wall-clock timeout, in seconds, for shell-interpreted commands
(command_executor.py, line 832). -/
def shellCommandTimeout : ℕ := 15

/-- Wall-clock timeout, in seconds, for literal-argv commands
(command_executor.py, line 842). -/
def literalCommandTimeout : ℕ := 10

/-- Wall-clock timeout, in seconds, for generated-script execution
(python_executor.py, line 21). -/
def pythonExecutionTimeout : ℕ := 5

/-- Counterexample to C5: the claimed strict ordering
literal < shell < generated-script does not hold — the generated-script
timeout (5 s) is not larger than the shell timeout (15 s). -/
theorem timeouts_claimed_order_false :
    ¬ (literalCommandTimeout < shellCommandTimeout ∧
       shellCommandTimeout < pythonExecutionTimeout) := by
  decide

/-- C5 (amended): literal-argv commands (10 s) do time out sooner than
shell-interpreted ones (15 s), but generated-script execution uses the
shortest timeout of all (5 s): script < literal < shell. -/
theorem timeouts_actual_order :
    pythonExecutionTimeout < literalCommandTimeout ∧
    literalCommandTimeout < shellCommandTimeout := by
  decide

/-! ### Captured output handling

The command path (`_execute_command`, command_executor.py, lines 846-883)
strips both captured streams and stores them, in full, in the result's
`data` payload; only the human-readable message truncates stdout at 2000
characters.  The generated-script path (`execute_python_code`,
python_executor.py, lines 280-281) slices each decoded stream to
`max_output_size` characters, appending nothing. -/

/-- `self.max_output_size = 10000` (python_executor.py, line 22). -/
def maxOutputSize : ℕ := 10000

/-- The character limit applied to stdout inside the success message of
`_execute_command` (command_executor.py, line 853). -/
def messageTruncateLimit : ℕ := 2000

/-- The stream slicing `[:self.max_output_size]` of `execute_python_code`
(python_executor.py, lines 280-281). -/
def pyTruncate (s : List Char) : List Char :=
  s.take maxOutputSize

/-- The `data` payload of the result built by `_execute_command`
(command_executor.py, lines 846-848 and 872-883). -/
structure ExecData where
  stdout : List Char
  stderr : List Char
  returncode : ℤ
deriving DecidableEq, Repr

/-- `stdout = result.stdout.strip()`, `stderr = result.stderr.strip()`, then
`data={"stdout": stdout, "stderr": stderr, "returncode": …}`
(command_executor.py, lines 846-848, 875-878): the streams reach the result
data stripped but otherwise whole. -/
def commandResultData (stdout stderr : List Char) (rc : ℤ) : ExecData :=
  { stdout := stripChars stdout, stderr := stripChars stderr, returncode := rc }

/-- Stripping a replicated non-whitespace character is the identity. -/
theorem stripChars_replicate (n : ℕ) (c : Char) (h : c.isWhitespace = false) :
    stripChars (List.replicate n c) = List.replicate n c := by
  have hdrop : ∀ m : ℕ, (List.replicate m c).dropWhile Char.isWhitespace =
      List.replicate m c := by
    intro m
    cases m with
    | zero => rfl
    | succ k => simp [List.replicate_succ, List.dropWhile_cons, h]
  rw [stripChars, hdrop, List.reverse_replicate, hdrop, List.reverse_replicate]

/-- Projection lemma for `commandResultData`. -/
theorem commandResultData_stdout (o e : List Char) (rc : ℤ) :
    (commandResultData o e rc).stdout = stripChars o := rfl

/-- Counterexample to C6: a 10001-character stdout reaches the
`_execute_command` result data at full length, exceeding both the 10000
character generated-script cap and the 2000-character message cap — so a
sandbox result can carry captured output larger than the configured cap. -/
theorem commandResultData_uncapped_counterexample :
    (commandResultData (List.replicate 10001 'a') [] 0).stdout.length = 10001 ∧
    maxOutputSize < 10001 ∧ messageTruncateLimit < 10001 := by
  refine ⟨?_, by decide, by decide⟩
  rw [commandResultData_stdout, stripChars_replicate 10001 'a' (by decide),
    List.length_replicate]

/-- C6 (amended): only the generated-script executor caps its captured
streams — each is cut to at most `max_output_size` characters and the cut is
a plain prefix of the raw stream (no truncation marker is appended) — while
the command executor's result data carries the stripped streams in full:
stdout of any length whatsoever passes through to the result. -/
theorem output_caps_actual :
    (∀ s : List Char, (pyTruncate s).length ≤ maxOutputSize) ∧
    (∀ s : List Char, pyTruncate s <+: s) ∧
    (∀ n : ℕ, ∃ out : List Char,
      (commandResultData out [] 0).stdout.length = n) := by
  refine ⟨fun s => ?_, fun s => List.take_prefix _ _, fun n => ?_⟩
  · rw [pyTruncate]
    simp [List.length_take]
  · refine ⟨List.replicate n 'a', ?_⟩
    rw [commandResultData_stdout, stripChars_replicate n 'a' (by decide),
      List.length_replicate]

/-! ### The generated-script path: `PythonExecutor`

`execute_with_python` (python_executor.py, lines 305-344) generates a script,
rejects a degenerate generation (empty, or under 10 characters once
stripped), and otherwise executes the script in the sandbox.  No call to
`is_safe_code` appears anywhere on this path (or anywhere else in the
repository): the static scan is defined (lines 371-395) but never applied. -/

/-- Outcome of the generation-gating step of `execute_with_python`. -/
inductive PyOutcome where
  /-- `"Failed to generate Python code"` (python_executor.py, lines 316-324). -/
  | generationFailed (code : List Char)
  /-- The script is passed to `execute_python_code` (line 327). -/
  | executed (code : List Char)
deriving DecidableEq, Repr

/-- The control flow of `execute_with_python` after code generation
(python_executor.py, lines 316-327): reject a degenerate script, otherwise
execute it.  Faithfully to the source, no safety scan is consulted. -/
def executeWithPython (code : List Char) : PyOutcome :=
  if code.isEmpty || (stripChars code).length < 10 then .generationFailed code
  else .executed code

/-- The pattern/reason table of `is_safe_code` (python_executor.py,
lines 376-383). -/
def isSafeCodePatterns : List (List Char × String) :=
  [("import subprocess".toList, "Subprocess execution not allowed"),
   ("import os.system".toList, "System command execution not allowed"),
   ("exec(".toList, "Dynamic code execution not allowed"),
   ("eval(".toList, "Dynamic evaluation not allowed"),
   ("__import__".toList, "Dynamic imports not allowed"),
   ("open(".toList, "File opening detected - ensure safe paths")]

/-- `PythonExecutor.is_safe_code` (python_executor.py, lines 371-395): the
first matching pattern other than the warning-only `open(` entry yields
`(False, reason)`; otherwise `(True, "Code appears safe")`. -/
def isSafeCode (code : List Char) : Bool × String :=
  let codeLower := toLowerChars code
  match isSafeCodePatterns.find?
      (fun pr => containsSub codeLower (toLowerChars pr.1) &&
        ¬ containsSub pr.1 "open(".toList) with
  | some pr => (false, pr.2)
  | none => (true, "Code appears safe")

/-- C4 (code bug): a generated script that spawns a subprocess — one the
static scan itself classifies as unsafe — is nevertheless passed to sandbox
execution by `execute_with_python`, because `is_safe_code` is never invoked
on the execution path. -/
theorem unsafe_script_reaches_execution :
    isSafeCode "import subprocess\nsubprocess.run([\x27ls\x27])".toList =
      (false, "Subprocess execution not allowed") ∧
    executeWithPython "import subprocess\nsubprocess.run([\x27ls\x27])".toList =
      .executed "import subprocess\nsubprocess.run([\x27ls\x27])".toList := by
  refine ⟨by decide, by decide⟩

/-- `PythonExecutor.can_handle_with_python` (python_executor.py,
lines 24-62): keyword scan over the case-folded request, the failed-type
check, then an unconditional `return True` default. -/
def canHandleWithPython (userRequest : List Char) (failedCommandType : String) : Bool :=
  let pythonIndicatorsEn : List String :=
    ["calculate", "compute", "average", "sum", "count", "analyze",
     "parse", "extract", "process", "convert", "transform",
     "compare", "find all", "filter", "sort by", "statistics",
     "json", "xml", "csv", "data", "numbers from", "pattern",
     "regex", "replace all", "manipulate", "generate random",
     "probability", "factorial", "fibonacci", "prime", "measure",
     "size", "how many", "total", "list all", "find", "search"]
  let pythonIndicatorsAz : List String :=
    ["hesabla", "ölç", "say", "cəm", "ortalama", "təhlil",
     "tap", "axtar", "süz", "çevir", "müqayisə", "statistika",
     "ölçü", "neçə", "cəmi", "siyahı", "hamısı"]
  let requestLower := toLowerChars userRequest
  let allIndicators := pythonIndicatorsEn ++ pythonIndicatorsAz
  let hasPythonIndicator :=
    allIndicators.any (fun ind => containsSub requestLower ind.toList)
  if failedCommandType == "execute_command" || failedCommandType == "unknown" then true
  else if hasPythonIndicator then true
  else true

/-- C9: `can_handle_with_python` returns `True` for every request string and
every failed-command-type value — its final default branch returns `True` —
so the fallback eligibility check never rejects any request. -/
theorem canHandleWithPython_always_true (userRequest : List Char)
    (failedCommandType : String) :
    canHandleWithPython userRequest failedCommandType = true := by
  simp only [canHandleWithPython, ite_self]

/-! ### AdmissionControl: the sliding-window rate limiter

`_allow_request` (main.py, lines 54-64) prunes timestamps older than the
window from the client's deque, rejects when the pruned deque already holds
the maximum, and otherwise appends the current time and admits.  The deque
is modelled as a list ordered oldest-first; `time.time()` values are
modelled as integers. -/

/-- `RATE_LIMIT_WINDOW_SEC = 30` (main.py, line 50). -/
def rateLimitWindowSec : ℤ := 30

/-- `RATE_LIMIT_MAX_REQUESTS = 10` (main.py, line 51). -/
def rateLimitMaxRequests : ℕ := 10

/-- The lazy pruning loop `while dq and dq[0] < window_start: dq.popleft()`
(main.py, lines 59-60). -/
def pruneOld (now : ℤ) (dq : List ℤ) : List ℤ :=
  dq.dropWhile (fun t => decide (t < now - rateLimitWindowSec))

/-- `_allow_request` for one client bucket (main.py, lines 54-64): returns
the admission decision and the updated bucket. -/
def allowRequest (now : ℤ) (dq : List ℤ) : Bool × List ℤ :=
  let pruned := pruneOld now dq
  if rateLimitMaxRequests ≤ pruned.length then (false, pruned)
  else (true, pruned ++ [now])

/-- A sequence of requests against one client bucket, oldest first. -/
def runRequests : List ℤ → List ℤ → List Bool × List ℤ
  | [], dq => ([], dq)
  | t :: rest, dq =>
    let r := allowRequest t dq
    let rr := runRequests rest r.2
    (r.1 :: rr.1, rr.2)

/-- `dropWhile` never lengthens a list. -/
theorem length_dropWhile_le {α : Type} (p : α → Bool) :
    ∀ l : List α, (l.dropWhile p).length ≤ l.length := by
  intro l
  induction l with
  | nil => exact le_refl _
  | cons a t ih =>
    rw [List.dropWhile_cons]
    by_cases h : p a = true
    · rw [if_pos h, List.length_cons]
      exact le_trans ih (Nat.le_succ _)
    · rw [if_neg h]

/-- `dropWhile` is the identity when no element satisfies the predicate. -/
theorem dropWhile_of_all_false {α : Type} {p : α → Bool} :
    ∀ {l : List α}, (∀ a ∈ l, p a = false) → l.dropWhile p = l := by
  intro l h
  induction l with
  | nil => rfl
  | cons a t _ => simp [List.dropWhile_cons, h a (List.mem_cons_self a t)]

/-- Admission pattern for a burst with no pruning: starting from a bucket of
size `d`, request `i` of the burst is admitted exactly when `d + i` is below
the maximum. -/
theorem runRequests_burst (ts : List ℤ) :
    ∀ dq : List ℤ,
      (∀ a ∈ dq, ∀ b ∈ ts, b - a ≤ rateLimitWindowSec) →
      (∀ a ∈ ts, ∀ b ∈ ts, b - a ≤ rateLimitWindowSec) →
      (runRequests ts dq).1 =
        (List.range ts.length).map
          (fun i => decide (dq.length + i < rateLimitMaxRequests)) := by
  induction ts with
  | nil => intro dq _ _; rfl
  | cons t rest ih =>
    intro dq hdq hts
    have hprune : pruneOld t dq = dq := by
      refine dropWhile_of_all_false (fun a ha => ?_)
      have := hdq a ha t (List.mem_cons_self t rest)
      simp only [decide_eq_false_iff_not, not_lt]
      omega
    have hts_rest : ∀ a ∈ rest, ∀ b ∈ rest, b - a ≤ rateLimitWindowSec :=
      fun a ha b hb =>
        hts a (List.mem_cons_of_mem t ha) b (List.mem_cons_of_mem t hb)
    rw [List.length_cons, List.range_succ_eq_map, List.map_cons, List.map_map]
    by_cases hlen : rateLimitMaxRequests ≤ dq.length
    · have hr : allowRequest t dq = (false, dq) := by
        rw [allowRequest, hprune, if_pos hlen]
      have htail := ih dq
        (fun a ha b hb => hdq a ha b (List.mem_cons_of_mem t hb)) hts_rest
      show ((allowRequest t dq).1 :: (runRequests rest (allowRequest t dq).2).1) = _
      rw [hr]
      refine congrArg₂ List.cons ?_ ?_
      · refine Eq.symm ?_
        simp only [decide_eq_false_iff_not, not_lt]
        omega
      · rw [htail]
        refine List.map_congr_left (fun i _ => ?_)
        simp only [Function.comp, decide_eq_decide]
        omega
    · have hr : allowRequest t dq = (true, dq ++ [t]) := by
        rw [allowRequest, hprune, if_neg hlen]
      have hdq' : ∀ a ∈ dq ++ [t], ∀ b ∈ rest, b - a ≤ rateLimitWindowSec := by
        intro a ha b hb
        rcases List.mem_append.mp ha with ha | ha
        · exact hdq a ha b (List.mem_cons_of_mem t hb)
        · rcases List.mem_singleton.mp ha with rfl
          exact hts a (List.mem_cons_self a rest) b (List.mem_cons_of_mem a hb)
      have htail := ih (dq ++ [t]) hdq' hts_rest
      show ((allowRequest t dq).1 :: (runRequests rest (allowRequest t dq).2).1) = _
      rw [hr]
      refine congrArg₂ List.cons ?_ ?_
      · refine Eq.symm ?_
        simp only [decide_eq_true_eq]
        omega
      · rw [htail]
        refine List.map_congr_left (fun i _ => ?_)
        simp only [Function.comp, List.length_append, List.length_singleton,
          decide_eq_decide]
        omega

/-- C7: (i) starting from an empty bucket, in any burst of requests all
lying within one window length of each other, request `i` is admitted
exactly when `i` is below the configured maximum — so exactly the maximum
number of requests are admitted and every later request of the burst,
including the (max+1)-th, is rejected; (ii) once every timestamp in the
bucket is older than the window, the pruning empties the bucket and the next
request is admitted into a singleton bucket; (iii) a bucket holding at most
the maximum never grows beyond the maximum. -/
theorem rateLimiter_spec :
    (∀ ts : List ℤ, (∀ a ∈ ts, ∀ b ∈ ts, b - a ≤ rateLimitWindowSec) →
      (runRequests ts []).1 =
        (List.range ts.length).map (fun i => decide (i < rateLimitMaxRequests))) ∧
    (∀ now : ℤ, ∀ dq : List ℤ, (∀ a ∈ dq, a < now - rateLimitWindowSec) →
      allowRequest now dq = (true, [now])) ∧
    (∀ now : ℤ, ∀ dq : List ℤ, dq.length ≤ rateLimitMaxRequests →
      ((allowRequest now dq).2).length ≤ rateLimitMaxRequests) := by
  refine ⟨fun ts hts => ?_, fun now dq hold => ?_, fun now dq hlen => ?_⟩
  · rw [runRequests_burst ts [] (by simp) hts]
    refine List.map_congr_left (fun i _ => ?_)
    simp
  · have hprune : pruneOld now dq = [] := by
      rw [pruneOld, List.dropWhile_eq_nil_iff]
      intro x hx
      simpa using hold x hx
    rw [allowRequest, hprune]
    simp [rateLimitMaxRequests]
  · rw [allowRequest]
    have hple : (pruneOld now dq).length ≤ dq.length :=
      length_dropWhile_le _ dq
    by_cases h : rateLimitMaxRequests ≤ (pruneOld now dq).length
    · rw [if_pos h]
      exact le_trans hple hlen
    · rw [if_neg h]
      simp only [List.length_append, List.length_singleton]
      omega

/-- Witness for C7: eleven requests inside one 30-second window admit
exactly the first ten and reject the eleventh; a request over a fully stale
bucket resets it; the bucket-size bound applied at a concrete state. -/
theorem rateLimiter_spec_witness :
    (runRequests [0, 1, 2, 3, 4, 5, 6, 7, 8, 9, 10] []).1 =
      (List.range 11).map (fun i => decide (i < rateLimitMaxRequests)) ∧
    allowRequest 100 [0, 1, 2] = (true, [100]) ∧
    ((allowRequest 5 [0, 1, 2]).2).length ≤ rateLimitMaxRequests :=
  ⟨rateLimiter_spec.1 [0, 1, 2, 3, 4, 5, 6, 7, 8, 9, 10] (by decide),
   rateLimiter_spec.2.1 100 [0, 1, 2] (by decide),
   rateLimiter_spec.2.2 5 [0, 1, 2] (by decide)⟩

/-! ### AdmissionControl: the `LRUCacheTTL` intent cache

`LRUCacheTTL` (main.py, lines 70-97) is an `OrderedDict` from keys to
`(insertion time, value)` pairs, kept in recency order (least recent first):
`get` deletes and misses on an entry older than the TTL, otherwise moves it
to the end; `set` writes the pair, moves it to the end, and pops the front
entry once the size exceeds capacity.  The ordered dictionary is modelled as
a list of `(key, timestamp, value)` triples, least recent first. -/

/-- TTL of the intent cache instance, `ttl_sec=180` (main.py, line 99). -/
def intentCacheTtlSec : ℤ := 180

/-- Capacity of the intent cache instance, `max_size=256` (main.py, line 99). -/
def intentCacheMaxSize : ℕ := 256

/-- `LRUCacheTTL.get` (main.py, lines 76-90): miss on absence; expire (delete
and miss) when the entry is older than the TTL; otherwise move to the end
and return the value. -/
def cacheGet {V : Type} (ttl now : ℤ) (store : List (String × ℤ × V))
    (key : String) : Option V × List (String × ℤ × V) :=
  match store.find? (fun e => e.1 == key) with
  | none => (none, store)
  | some e =>
    if ttl < now - e.2.1 then (none, store.filter (fun x => ! (x.1 == key)))
    else (some e.2.2, store.filter (fun x => ! (x.1 == key)) ++ [e])

/-- `LRUCacheTTL.set` (main.py, lines 92-96): write `(now, value)` under the
key, move it to the end, then pop the least-recent entry if the size
exceeds the capacity. -/
def cacheSet {V : Type} (maxSize : ℕ) (now : ℤ) (store : List (String × ℤ × V))
    (key : String) (v : V) : List (String × ℤ × V) :=
  let store1 := store.filter (fun x => ! (x.1 == key)) ++ [(key, now, v)]
  if maxSize < store1.length then store1.tail else store1

/-- `find?` over a `filter` misses when every element the search would
accept is removed by the filter. -/
theorem find?_filter_eq_none {α : Type} {l : List α} {P keep : α → Bool}
    (h : ∀ x ∈ l, P x = true → keep x = false) :
    (l.filter keep).find? P = none := by
  rw [List.find?_eq_none]
  intro x hx hPx
  rcases List.mem_filter.mp hx with ⟨hxl, hkeep⟩
  rw [h x hxl hPx] at hkeep
  exact Bool.false_ne_true hkeep

/-- `find?` over a `filter` is unchanged when the filter keeps every element
the search would accept. -/
theorem find?_filter_eq_find? {α : Type} {P keep : α → Bool} :
    ∀ {l : List α}, (∀ x ∈ l, P x = true → keep x = true) →
      (l.filter keep).find? P = l.find? P := by
  intro l
  induction l with
  | nil => intro _; rfl
  | cons a t ih =>
    intro h
    have ht : ∀ x ∈ t, P x = true → keep x = true :=
      fun x hx => h x (List.mem_cons_of_mem a hx)
    by_cases hk : keep a = true
    · rw [List.filter_cons_of_pos hk]
      by_cases hP : P a = true
      · rw [List.find?_cons_of_pos _ hP, List.find?_cons_of_pos _ hP]
      · rw [List.find?_cons_of_neg _ (by simp [hP]),
          List.find?_cons_of_neg _ (by simp [hP])]
        exact ih ht
    · have hP : P a = false := by
        by_cases hPa : P a = true
        · exact absurd (h a (List.mem_cons_self a t) hPa) hk
        · simpa using hPa
      rw [List.filter_cons_of_neg (by simp [hk]),
        List.find?_cons_of_neg _ (by simp [hP])]
      exact ih ht

/-- C8: (i) looking up an entry inserted more than TTL seconds ago misses
and removes the entry; (ii) looking up a live entry returns its value and
moves it to the most-recent (last) position; (iii) inserting a fresh key
into a full cache evicts exactly the least-recently-used (front) entry,
while the freshly inserted key sits at the most-recent position — never the
evicted one. -/
theorem lruCacheTTL_spec {V : Type} :
    (∀ (ttl now : ℤ) (store : List (String × ℤ × V)) (key : String) (ts : ℤ) (v : V),
      store.find? (fun e => e.1 == key) = some (key, ts, v) → ttl < now - ts →
      (cacheGet ttl now store key).1 = none ∧
      ((cacheGet ttl now store key).2).find? (fun e => e.1 == key) = none) ∧
    (∀ (ttl now : ℤ) (store : List (String × ℤ × V)) (key : String) (ts : ℤ) (v : V),
      store.find? (fun e => e.1 == key) = some (key, ts, v) → now - ts ≤ ttl →
      (cacheGet ttl now store key).1 = some v ∧
      ((cacheGet ttl now store key).2).getLast? = some (key, ts, v)) ∧
    (∀ (maxSize : ℕ) (now : ℤ) (store : List (String × ℤ × V)) (key : String) (v : V),
      (∀ e ∈ store, e.1 ≠ key) → store.length = maxSize → 1 ≤ maxSize →
      cacheSet maxSize now store key v = store.tail ++ [(key, now, v)]) := by
  refine ⟨fun ttl now store key ts v hfind hexp => ?_,
    fun ttl now store key ts v hfind hlive => ?_,
    fun maxSize now store key v hfresh hlen hpos => ?_⟩
  · rw [cacheGet, hfind]
    dsimp only
    rw [if_pos (by simpa using hexp)]
    refine ⟨rfl, ?_⟩
    refine find?_filter_eq_none (fun x _ hPx => ?_)
    rw [hPx]
    rfl
  · rw [cacheGet, hfind]
    dsimp only
    rw [if_neg (by simp only [not_lt]; simpa using hlive)]
    exact ⟨rfl, List.getLast?_concat _⟩
  · rw [cacheSet]
    have hfilter : store.filter (fun x => ! (x.1 == key)) = store := by
      rw [List.filter_eq_self]
      intro a ha
      simp [hfresh a ha]
    simp only [hfilter]
    rw [if_pos (by simp [hlen])]
    cases store with
    | nil => simp at hlen; omega
    | cons s ss => rfl

/-- Witness for C8: a concrete two-entry cache — an expired entry misses and
is removed, a live entry is returned and moved to the back, and inserting a
third key into a full two-slot cache evicts the front entry only. -/
theorem lruCacheTTL_spec_witness :
    ((cacheGet 180 200 [("a", 0, (1 : ℕ)), ("b", 5, 2)] "a").1 = none ∧
      ((cacheGet 180 200 [("a", 0, (1 : ℕ)), ("b", 5, 2)] "a").2).find?
        (fun e => e.1 == "a") = none) ∧
    ((cacheGet 180 100 [("a", 0, (1 : ℕ)), ("b", 5, 2)] "a").1 = some 1 ∧
      ((cacheGet 180 100 [("a", 0, (1 : ℕ)), ("b", 5, 2)] "a").2).getLast? =
        some ("a", 0, 1)) ∧
    cacheSet 2 7 [("a", 0, (1 : ℕ)), ("b", 5, 2)] "c" 9 =
      [("b", 5, 2), ("c", 7, 9)] :=
  ⟨(lruCacheTTL_spec (V := ℕ)).1 180 200 _ "a" 0 1 (by decide) (by decide),
   (lruCacheTTL_spec (V := ℕ)).2.1 180 100 _ "a" 0 1 (by decide) (by decide),
   (lruCacheTTL_spec (V := ℕ)).2.2 2 7 [("a", 0, 1), ("b", 5, 2)] "c" 9
     (by decide) (by decide) (by decide)⟩

/-! ### `CommandExecutor._delete_file` over an abstract file system

`_delete_file` (command_executor.py, lines 526-569) normalizes the path,
reports "File not found" for a non-existent target, unlinks a regular file,
and calls `shutil.rmtree` on a directory — reporting success ("Deleted
file"/"Deleted directory") in both cases.  The file system is modelled as an
association list from canonical paths (component lists) to entry kinds;
`unlink` removes exactly the entry at the path, `rmtree` removes the entry
and every entry below it. -/

/-- Kind of a file-system entry. -/
inductive EntryKind where
  | file
  | dir
deriving DecidableEq, Repr

/-- Path lookup in the abstract file system. -/
def lookupFS (fs : List (List String × EntryKind)) (p : List String) :
    Option EntryKind :=
  (fs.find? (fun e => e.1 == p)).map (fun e => e.2)

/-- Outcome reported by `_delete_file`. -/
inductive DeleteOutcome where
  /-- `"No file path specified"` (lines 530-535). -/
  | noPath
  /-- `PermissionError` raised by `_normalize_path` (line 58). -/
  | permissionDenied
  /-- `"File not found"` (lines 540-545). -/
  | notFound
  /-- `normalized_path.unlink()`, `"Deleted file"` (lines 547-554). -/
  | deletedFile
  /-- `shutil.rmtree(normalized_path)`, `"Deleted directory"` (lines 555-562). -/
  | deletedDir
deriving DecidableEq, Repr

/-- Whether `_delete_file` reports `success=True` for the outcome. -/
def deleteSuccess : DeleteOutcome → Bool
  | .deletedFile => true
  | .deletedDir => true
  | _ => false

/-- `CommandExecutor._delete_file` (command_executor.py, lines 526-569):
missing/empty path check, path normalization, existence check, then
`unlink` for a regular file or `shutil.rmtree` for a directory. -/
def deleteFileHandler (resolve : List Char → List String) (base : List String)
    (fs : List (List String × EntryKind)) (pathParam : Option (List Char)) :
    DeleteOutcome × List (List String × EntryKind) :=
  match pathParam with
  | none => (.noPath, fs)
  | some path =>
    if path.isEmpty then (.noPath, fs)
    else
      match normalizePath resolve base path with
      | .error _ => (.permissionDenied, fs)
      | .ok p =>
        match lookupFS fs p with
        | none => (.notFound, fs)
        | some .file => (.deletedFile, fs.filter (fun e => ! (e.1 == p)))
        | some .dir => (.deletedDir, fs.filter (fun e => ! (p.isPrefixOf e.1)))

/-- C10: when the supplied path normalizes (inside the allowed root) to `p`
and `p` is an existing directory, `_delete_file` reports a successful
directory deletion and removes `p` together with every entry below it (the
whole tree), leaving entries outside the tree untouched; only when `p` is an
existing regular file does it unlink the single entry `p`, leaving every
other entry untouched. -/
theorem deleteFile_dir_tree_file_single (resolve : List Char → List String)
    (base : List String) (fs : List (List String × EntryKind))
    (path : List Char) (p : List String) (hne : path.isEmpty = false)
    (hnorm : normalizePath resolve base path = .ok p) :
    (lookupFS fs p = some .dir →
      (deleteFileHandler resolve base fs (some path)).1 = .deletedDir ∧
      deleteSuccess (deleteFileHandler resolve base fs (some path)).1 = true ∧
      (∀ q, p.isPrefixOf q = true →
        lookupFS (deleteFileHandler resolve base fs (some path)).2 q = none) ∧
      (∀ q, p.isPrefixOf q = false →
        lookupFS (deleteFileHandler resolve base fs (some path)).2 q = lookupFS fs q)) ∧
    (lookupFS fs p = some .file →
      (deleteFileHandler resolve base fs (some path)).1 = .deletedFile ∧
      deleteSuccess (deleteFileHandler resolve base fs (some path)).1 = true ∧
      lookupFS (deleteFileHandler resolve base fs (some path)).2 p = none ∧
      (∀ q, q ≠ p →
        lookupFS (deleteFileHandler resolve base fs (some path)).2 q = lookupFS fs q)) := by
  constructor
  · intro hdir
    have hred : deleteFileHandler resolve base fs (some path) =
        (.deletedDir, fs.filter (fun e => ! (p.isPrefixOf e.1))) := by
      rw [deleteFileHandler]
      rw [if_neg (by simp [hne]), hnorm]
      dsimp only
      rw [hdir]
    rw [hred]
    refine ⟨rfl, rfl, fun q hq => ?_, fun q hq => ?_⟩
    · have h : ∀ x ∈ fs, (x.1 == q) = true → (! (p.isPrefixOf x.1)) = false := by
        intro x _ hPx
        have hx : x.1 = q := by simpa using hPx
        rw [hx, hq]
        rfl
      rw [lookupFS, find?_filter_eq_none h]
      rfl
    · have h : ∀ x ∈ fs, (x.1 == q) = true → (! (p.isPrefixOf x.1)) = true := by
        intro x _ hPx
        have hx : x.1 = q := by simpa using hPx
        rw [hx, hq]
        rfl
      rw [lookupFS, find?_filter_eq_find? h, lookupFS]
  · intro hfile
    have hred : deleteFileHandler resolve base fs (some path) =
        (.deletedFile, fs.filter (fun e => ! (e.1 == p))) := by
      rw [deleteFileHandler]
      rw [if_neg (by simp [hne]), hnorm]
      dsimp only
      rw [hfile]
    rw [hred]
    refine ⟨rfl, rfl, ?_, fun q hq => ?_⟩
    · have h : ∀ x ∈ fs, (x.1 == p) = true → (! (x.1 == p)) = false := by
        intro x _ hPx
        simp [hPx]
      rw [lookupFS, find?_filter_eq_none h]
      rfl
    · have h : ∀ x ∈ fs, (x.1 == q) = true → (! (x.1 == p)) = true := by
        intro x _ hPx
        have hx : x.1 = q := by simpa using hPx
        simp [hx, hq]
      rw [lookupFS, find?_filter_eq_find? h, lookupFS]

/-- Witness for C10: in a concrete three-entry file system, deleting a path
resolving to the directory `h/u/d` removes the directory and the file below
it while preserving the unrelated file `h/u/y`; deleting a path resolving to
the regular file `h/u/y` removes only that entry. -/
theorem deleteFile_dir_tree_file_single_witness :
    ((deleteFileHandler (fun _ => ["h", "u", "d"]) ["h", "u"]
        [(["h", "u", "d"], .dir), (["h", "u", "d", "x"], .file), (["h", "u", "y"], .file)]
        (some "d".toList)).1 = .deletedDir ∧
      lookupFS (deleteFileHandler (fun _ => ["h", "u", "d"]) ["h", "u"]
        [(["h", "u", "d"], .dir), (["h", "u", "d", "x"], .file), (["h", "u", "y"], .file)]
        (some "d".toList)).2 ["h", "u", "d", "x"] = none ∧
      lookupFS (deleteFileHandler (fun _ => ["h", "u", "d"]) ["h", "u"]
        [(["h", "u", "d"], .dir), (["h", "u", "d", "x"], .file), (["h", "u", "y"], .file)]
        (some "d".toList)).2 ["h", "u", "y"] =
        lookupFS [(["h", "u", "d"], .dir), (["h", "u", "d", "x"], .file),
          (["h", "u", "y"], .file)] ["h", "u", "y"]) ∧
    ((deleteFileHandler (fun _ => ["h", "u", "y"]) ["h", "u"]
        [(["h", "u", "d"], .dir), (["h", "u", "d", "x"], .file), (["h", "u", "y"], .file)]
        (some "y".toList)).1 = .deletedFile ∧
      lookupFS (deleteFileHandler (fun _ => ["h", "u", "y"]) ["h", "u"]
        [(["h", "u", "d"], .dir), (["h", "u", "d", "x"], .file), (["h", "u", "y"], .file)]
        (some "y".toList)).2 ["h", "u", "y"] = none) := by
  have hdir := (deleteFile_dir_tree_file_single (fun _ => ["h", "u", "d"]) ["h", "u"]
    [(["h", "u", "d"], .dir), (["h", "u", "d", "x"], .file), (["h", "u", "y"], .file)]
    "d".toList ["h", "u", "d"] (by decide) (by rfl)).1 (by decide)
  have hfile := (deleteFile_dir_tree_file_single (fun _ => ["h", "u", "y"]) ["h", "u"]
    [(["h", "u", "d"], .dir), (["h", "u", "d", "x"], .file), (["h", "u", "y"], .file)]
    "y".toList ["h", "u", "y"] (by decide) (by rfl)).2 (by decide)
  exact ⟨⟨hdir.1, hdir.2.2.1 ["h", "u", "d", "x"] (by decide),
    hdir.2.2.2 ["h", "u", "y"] (by decide)⟩,
    ⟨hfile.1, hfile.2.2.1⟩⟩

end LIA
